import Mathlib

/-!
Verification of the PhotosByDate media organizer.

The development shallowly embeds the core logic of the repository:

* `date_extractor.py` — `_is_valid_date` and `extract_date_from_filename`
  (the priority-ordered regex scan over filenames);
* `file_copier.py` — `_get_unique_filename`, the folder-shape predicates,
  `copy_file_to_destination` (target-folder computation and the
  identical-path move check) and `restructure_for_smart_mode`
  (the smart-mode consolidation pass), over an explicit directory-tree model;
* `media_organizer.py` — `determine_file_date` and the per-file statistics
  updates of `process_files`;
* `logger_config.py` — `LoggerStats`.

Python strings are modelled as `List Char` (ASCII-faithful: `str.isdigit`
is modelled as the ASCII digit test), Python `int` as `Int`/`Nat`, and the
filesystem as a finite labelled tree.  Regular-expression search is embedded
as a direct leftmost search with per-pattern matchers that reproduce the
exact backtracking behaviour of the six patterns in the source (for these
patterns, the alternation over prefix tokens is the only backtracking point;
every other quantifier is determinate because the adjacent character classes
are disjoint).
-/

/-! ## Date validation (`date_extractor._is_valid_date`) -/

/-- Leap-year test as performed by CPython's `datetime` module
(`year % 4 == 0 and (year % 100 != 0 or year % 400 == 0)`). -/
def pyIsLeapYear (y : Int) : Bool :=
  decide (y % 4 = 0 ∧ (y % 100 ≠ 0 ∨ y % 400 = 0))

/-- Days in a month as used by CPython's `datetime` constructor
(`_days_in_month`). -/
def pyDaysInMonth (y m : Int) : Int :=
  if m = 2 then (if pyIsLeapYear y then 29 else 28)
  else if m = 4 ∨ m = 6 ∨ m = 9 ∨ m = 11 then 30
  else 31

/-- Validity condition of the CPython constructor `datetime(year, month, day)`:
it raises `ValueError` unless `MINYEAR ≤ year ≤ MAXYEAR`, `1 ≤ month ≤ 12`
and `1 ≤ day ≤ days_in_month(year, month)`.  This models the stdlib call
made (inside `try/except ValueError`) by `_is_valid_date`. -/
def pyDatetimeOk (y m d : Int) : Bool :=
  decide (1 ≤ y ∧ y ≤ 9999 ∧ 1 ≤ m ∧ m ≤ 12 ∧ 1 ≤ d ∧ d ≤ pyDaysInMonth y m)

/-- `date_extractor._is_valid_date(year, month, day)`: range checks on the
year (1900–2099), month (1–12) and day (1–31), then the `datetime`
constructor probe. -/
def _is_valid_date (year month day : Int) : Bool :=
  if year < 1900 ∨ year > 2099 then false
  else if month < 1 ∨ month > 12 then false
  else if day < 1 ∨ day > 31 then false
  else pyDatetimeOk year month day

/-- Spec-side definition (for comparison with `_is_valid_date`): the
Gregorian leap-year rule as stated by the specification. -/
def specIsLeap (y : Int) : Bool :=
  decide ((4 : Int) ∣ y ∧ (¬ (100 : Int) ∣ y ∨ (400 : Int) ∣ y))

/-- Spec-side days-in-month table (for comparison with `_is_valid_date`),
following the specification's "days-in-month table including leap years". -/
def specDaysInMonth (y m : Int) : Int :=
  if m = 1 then 31
  else if m = 2 then (if specIsLeap y then 29 else 28)
  else if m = 3 then 31
  else if m = 4 then 30
  else if m = 5 then 31
  else if m = 6 then 30
  else if m = 7 then 31
  else if m = 8 then 31
  else if m = 9 then 30
  else if m = 10 then 31
  else if m = 11 then 30
  else 31

/-- Spec-side predicate: `(y, m, d)` denotes a real Gregorian calendar day
(month in range and day within that month's length for that year). -/
def isRealGregorianDay (y m d : Int) : Prop :=
  1 ≤ m ∧ m ≤ 12 ∧ 1 ≤ d ∧ d ≤ specDaysInMonth y m

instance (y m d : Int) : Decidable (isRealGregorianDay y m d) := by
  unfold isRealGregorianDay; infer_instance

/-! ## Filename date extraction (`date_extractor.extract_date_from_filename`)

The six patterns of `date_patterns`, in source order:

1. `(?:IMG|VID|PXL|PHOTO|VIDEO|PANO)[-_](\d{4})(\d{2})(\d{2})[-_]?(\d{2})?(\d{2})?(\d{2})?`
2. `(\d{4})[-_\.:](\d{2})[-_\.:](\d{2})`
3. `(?<![0-9A-Fa-f])(\d{4})(\d{2})(\d{2})(?![0-9A-Fa-f])`
4. `(?:screenshot|photo|image|snap|pic)[-_\s]+(\d{4})[-_\.:](\d{2})[-_\.:](\d{2})`
5. `(\d{2})[-_\.:](\d{2})[-_\.:](\d{4})`
6. `(?<![0-9A-Fa-f])(\d{2})(\d{2})(\d{4})(?![0-9A-Fa-f])`

All are searched case-insensitively (`re.IGNORECASE`); `re.search` returns
the match at the leftmost feasible starting position.  A matcher receives
the reversed prefix of already-passed characters (for the look-behind
assertions) and the suffix starting at the candidate position. -/

/-- The result of a successful `datetime(...)` construction in the parser:
year, month, day, hour, minute, second. -/
structure PyDateTime where
  year : Nat
  month : Nat
  day : Nat
  hour : Nat
  minute : Nat
  second : Nat
deriving DecidableEq, Repr

/-- Captured groups of one regex match, in order; `none` is an unmatched
optional group (Python's `None`). -/
abbrev Groups := List (Option (List Char))

/-- ASCII lower-casing of a single character (model of `re.IGNORECASE`
comparison for the ASCII tokens appearing in the patterns). -/
def lowerChar (c : Char) : Char :=
  if 65 ≤ c.toNat ∧ c.toNat ≤ 90 then Char.ofNat (c.toNat + 32) else c

/-- Case-insensitive character comparison. -/
def ciCharEq (a b : Char) : Bool := lowerChar a == lowerChar b

/-- The character class `[-_]`. -/
def isDashUnd (c : Char) : Bool := c == '-' || c == '_'

/-- The character class `[-_\.:]` (the delimiter class of patterns 2, 4, 5). -/
def isDelimChar (c : Char) : Bool := c == '-' || c == '_' || c == '.' || c == ':'

/-- The character class `[0-9A-Fa-f]` used by the look-around guards. -/
def isHexDigitChar (c : Char) : Bool :=
  c.isDigit || (decide ('A' ≤ c) && decide (c ≤ 'F')) || (decide ('a' ≤ c) && decide (c ≤ 'f'))

/-- The character class `[-_\s]` of pattern 4 (`\s` restricted to ASCII
whitespace, which is what the source's filenames contain). -/
def isSepChar (c : Char) : Bool :=
  c == '-' || c == '_' || c == ' ' || c == '\t' || c == '\n' || c == '\r' ||
  c == '\x0b' || c == '\x0c'

/-- Match exactly `n` characters satisfying `p`; returns the consumed
characters and the rest (the regex piece `\d{n}` with `p = Char.isDigit`). -/
def takeCount (p : Char → Bool) : Nat → List Char → Option (List Char × List Char)
  | 0, s => some ([], s)
  | _ + 1, [] => none
  | n + 1, c :: s =>
    if p c then
      match takeCount p n s with
      | some (t, r) => some (c :: t, r)
      | none => none
    else none

/-- Match a literal token case-insensitively; returns the rest on success. -/
def matchTokenCI : List Char → List Char → Option (List Char)
  | [], s => some s
  | _ :: _, [] => none
  | t :: ts, c :: s => if ciCharEq t c then matchTokenCI ts s else none

/-- Try each token of a list in order (regex alternation: first alternative
whose continuation succeeds wins). -/
def tryTokens (tokens : List (List Char)) (k : List Char → Option Groups)
    (s : List Char) : Option Groups :=
  match tokens with
  | [] => none
  | t :: ts =>
    match matchTokenCI t s with
    | some rest =>
      match k rest with
      | some g => some g
      | none => tryTokens ts k s
    | none => tryTokens ts k s

/-- The prefix tokens of pattern 1, in the source's alternation order. -/
def p1Tokens : List (List Char) :=
  [['i', 'm', 'g'], ['v', 'i', 'd'], ['p', 'x', 'l'],
   ['p', 'h', 'o', 't', 'o'], ['v', 'i', 'd', 'e', 'o'], ['p', 'a', 'n', 'o']]

/-- The keyword tokens of pattern 4, in the source's alternation order. -/
def p4Tokens : List (List Char) :=
  [['s', 'c', 'r', 'e', 'e', 'n', 's', 'h', 'o', 't'],
   ['p', 'h', 'o', 't', 'o'], ['i', 'm', 'a', 'g', 'e'],
   ['s', 'n', 'a', 'p'], ['p', 'i', 'c']]

/-- After the date part of pattern 1: `[-_]?(\d{2})?(\d{2})?(\d{2})?`.
Nothing follows these greedy optionals, so greedy matching is exact. -/
def p1TimePart (s : List Char) : Option (List Char) × Option (List Char) × Option (List Char) :=
  let s1 := match s with
    | c :: r => if isDashUnd c then r else s
    | [] => s
  match takeCount Char.isDigit 2 s1 with
  | none => (none, none, none)
  | some (h, s2) =>
    match takeCount Char.isDigit 2 s2 with
    | none => (some h, none, none)
    | some (mi, s3) =>
      match takeCount Char.isDigit 2 s3 with
      | none => (some h, some mi, none)
      | some (se, _) => (some h, some mi, some se)

/-- Continuation of pattern 1 after one of the prefix tokens:
`[-_](\d{4})(\d{2})(\d{2})` followed by the optional time part. -/
def p1AfterToken (s : List Char) : Option Groups :=
  match s with
  | [] => none
  | c :: s1 =>
    if isDashUnd c then
      match takeCount Char.isDigit 4 s1 with
      | none => none
      | some (y, s2) =>
        match takeCount Char.isDigit 2 s2 with
        | none => none
        | some (mo, s3) =>
          match takeCount Char.isDigit 2 s3 with
          | none => none
          | some (d, s4) =>
            let t := p1TimePart s4
            some [some y, some mo, some d, t.1, t.2.1, t.2.2]
    else none

/-- Matcher for pattern 1 at one position. -/
def matchP1 (_before s : List Char) : Option Groups :=
  tryTokens p1Tokens p1AfterToken s

/-- The delimited-date core `(\d{a})[-_\.:](\d{b})[-_\.:](\d{c})`. -/
def delimitedDate (a b c : Nat) (s : List Char) : Option Groups :=
  match takeCount Char.isDigit a s with
  | none => none
  | some (g1, s1) =>
    match s1 with
    | [] => none
    | d1 :: s2 =>
      if isDelimChar d1 then
        match takeCount Char.isDigit b s2 with
        | none => none
        | some (g2, s3) =>
          match s3 with
          | [] => none
          | d2 :: s4 =>
            if isDelimChar d2 then
              match takeCount Char.isDigit c s4 with
              | none => none
              | some (g3, _) => some [some g1, some g2, some g3]
            else none
      else none

/-- Matcher for pattern 2 (`YYYY-MM-DD` with delimiters) at one position. -/
def matchP2 (_before s : List Char) : Option Groups :=
  delimitedDate 4 2 2 s

/-- The negative look-behind `(?<![0-9A-Fa-f])`: the character just before
the current position (the head of the reversed prefix), if any, is not a
hex digit. -/
def noHexBefore : List Char → Bool
  | [] => true
  | x :: _ => !isHexDigitChar x

/-- The negative look-ahead `(?![0-9A-Fa-f])`: the next character, if any,
is not a hex digit. -/
def noHexAhead : List Char → Bool
  | [] => true
  | x :: _ => !isHexDigitChar x

/-- A bare digit run split `a`/`b`/`c`, guarded on both sides by the
negative look-around `[0-9A-Fa-f]` tests of patterns 3 and 6. -/
def bareDigits (a b c : Nat) (before s : List Char) : Option Groups :=
  if noHexBefore before then
    match takeCount Char.isDigit a s with
    | none => none
    | some (g1, s1) =>
      match takeCount Char.isDigit b s1 with
      | none => none
      | some (g2, s2) =>
        match takeCount Char.isDigit c s2 with
        | none => none
        | some (g3, s3) =>
          if noHexAhead s3 then some [some g1, some g2, some g3] else none
  else none

/-- Matcher for pattern 3 (bare `YYYYMMDD`, hex-guarded) at one position. -/
def matchP3 (before s : List Char) : Option Groups :=
  bareDigits 4 2 2 before s

/-- Continuation of pattern 4 after a keyword token: `[-_\s]+` then the
delimited date.  The separator class and `\d` are disjoint, so the greedy
`+` is exact. -/
def p4AfterToken (s : List Char) : Option Groups :=
  match s with
  | [] => none
  | c :: r =>
    if isSepChar c then delimitedDate 4 2 2 (r.dropWhile isSepChar) else none

/-- Matcher for pattern 4 (keyword then delimited date) at one position. -/
def matchP4 (_before s : List Char) : Option Groups :=
  tryTokens p4Tokens p4AfterToken s

/-- Matcher for pattern 5 (`DD-MM-YYYY` with delimiters) at one position. -/
def matchP5 (_before s : List Char) : Option Groups :=
  delimitedDate 2 2 4 s

/-- Matcher for pattern 6 (bare `DDMMYYYY`, hex-guarded) at one position. -/
def matchP6 (before s : List Char) : Option Groups :=
  bareDigits 2 2 4 before s

/-- `re.search`: try the matcher at every position from left to right
(including the end-of-string position); first success wins.  `before` is
the reversed list of characters to the left of the current position. -/
def searchFrom (m : List Char → List Char → Option Groups) :
    List Char → List Char → Option Groups
  | before, s =>
    match m before s with
    | some g => some g
    | none =>
      match s with
      | [] => none
      | c :: rest => searchFrom m (c :: before) rest

/-- The `format_type` tags of the pattern table. -/
inductive DateFmt where
  | ymdHms
  | ymd
  | dmy
deriving DecidableEq

/-- The source's `date_patterns` list: matcher plus format tag, in priority
order. -/
def date_patterns : List ((List Char → List Char → Option Groups) × DateFmt) :=
  [(matchP1, DateFmt.ymdHms), (matchP2, DateFmt.ymd), (matchP3, DateFmt.ymd),
   (matchP4, DateFmt.ymd), (matchP5, DateFmt.dmy), (matchP6, DateFmt.dmy)]

/-- Numeric value of a captured digit group (`int(...)` on a digit string). -/
def digitsToNat (l : List Char) : Nat :=
  l.foldl (fun a c => 10 * a + (c.toNat - 48)) 0

/-- Fetch group `i` of a match (`match.groups()[i]`), `none` when the group
did not participate. -/
def getGroup (gs : Groups) (i : Nat) : Option (List Char) :=
  (gs.get? i).bind id

/-- Hour/minute/second validity of the CPython `datetime` constructor:
it raises `ValueError` unless `0 ≤ hour ≤ 23`, `0 ≤ minute ≤ 59`,
`0 ≤ second ≤ 59` (the parser catches this and moves on). -/
def pyTimeOk (h mi se : Nat) : Bool :=
  decide (h ≤ 23) && decide (mi ≤ 59) && decide (se ≤ 59)

/-- The loop body of `extract_date_from_filename` for one successful match:
convert groups to integers according to the format tag, validate via
`_is_valid_date`, build the `datetime`; any failure (invalid date, or a
`ValueError` from out-of-range time fields) yields `none` and the caller
continues with the next pattern. -/
def handleMatch (fmt : DateFmt) (gs : Groups) : Option PyDateTime :=
  match fmt with
  | DateFmt.ymdHms =>
    match getGroup gs 0, getGroup gs 1, getGroup gs 2 with
    | some ys, some ms, some ds =>
      let y := digitsToNat ys
      let mo := digitsToNat ms
      let d := digitsToNat ds
      if _is_valid_date y mo d then
        let h := match getGroup gs 3 with | some hs => digitsToNat hs | none => 0
        let mi := match getGroup gs 4 with | some mis => digitsToNat mis | none => 0
        let se := match getGroup gs 5 with | some ses => digitsToNat ses | none => 0
        if pyTimeOk h mi se then some ⟨y, mo, d, h, mi, se⟩ else none
      else none
    | _, _, _ => none
  | DateFmt.ymd =>
    match getGroup gs 0, getGroup gs 1, getGroup gs 2 with
    | some ys, some ms, some ds =>
      let y := digitsToNat ys
      let mo := digitsToNat ms
      let d := digitsToNat ds
      if _is_valid_date y mo d then some ⟨y, mo, d, 0, 0, 0⟩ else none
    | _, _, _ => none
  | DateFmt.dmy =>
    match getGroup gs 0, getGroup gs 1, getGroup gs 2 with
    | some ds, some ms, some ys =>
      let d := digitsToNat ds
      let mo := digitsToNat ms
      let y := digitsToNat ys
      if _is_valid_date y mo d then some ⟨y, mo, d, 0, 0, 0⟩ else none
    | _, _, _ => none

/-- The pattern loop of `extract_date_from_filename`: for each pattern in
priority order, search for its first match; on a match, validate and build
the date, otherwise (no match, or validation failure) continue with the
next pattern. -/
def tryPatterns :
    List ((List Char → List Char → Option Groups) × DateFmt) → List Char →
    Option PyDateTime
  | [], _ => none
  | (m, fmt) :: rest, name =>
    match searchFrom m [] name with
    | none => tryPatterns rest name
    | some gs =>
      match handleMatch fmt gs with
      | some dt => some dt
      | none => tryPatterns rest name

/-- `filename.rsplit('.', 1)[0]`: drop the final extension (everything from
the last dot on); a dotless name is kept whole. -/
def stripLastExt (l : List Char) : List Char :=
  if l.contains '.' then
    (l.reverse.drop ((l.reverse.takeWhile (fun c => c ≠ '.')).length + 1)).reverse
  else l

/-- `date_extractor.extract_date_from_filename`. -/
def extract_date_from_filename (filename : List Char) : Option PyDateTime :=
  tryPatterns date_patterns (stripLastExt filename)

/-- Spec-side predicate (for claim comparison): position `i` of `s` starts a
maximal run of exactly eight decimal digits whose immediate neighbour on at
least one side is a hexadecimal digit character.  Since a decimal-digit
neighbour would extend the run, such a neighbour is necessarily a hex
letter. -/
def eightRunHexAdjacentAt (s : List Char) (i : Nat) : Bool :=
  ((s.drop i).take 8).length == 8 &&
  ((s.drop i).take 8).all Char.isDigit &&
  (i == 0 || !(Char.isDigit (s.getD (i - 1) ' '))) &&
  !(Char.isDigit (s.getD (i + 8) ' ')) &&
  ((decide (0 < i) && isHexDigitChar (s.getD (i - 1) ' ')) ||
   isHexDigitChar (s.getD (i + 8) ' '))

/-- Spec-side predicate: `s` contains an eight-digit run immediately
adjacent to a hexadecimal digit character. -/
def hasHexAdjacentRun (s : List Char) : Bool :=
  (List.range (s.length + 1)).any (eightRunHexAdjacentAt s)

/-! ## Unique filenames (`file_copier._get_unique_filename`)

The destination folder's contents are modelled as the list of names that
`os.path.exists` would report. -/

/-- Split a character list at its last dot: `some (stem, dotExt)` where the
extension part starts with the dot, or `none` when there is no dot. -/
def splitAtLastDot : List Char → Option (List Char × List Char)
  | [] => none
  | c :: rest =>
    match splitAtLastDot rest with
    | some (n, e) => some (c :: n, e)
    | none => if c == '.' then some ([], '.' :: rest) else none

/-- `os.path.splitext` on a bare filename: split at the last dot, except
that a dot with only dots before it (as in `.bashrc` or `..jpg`) does not
begin an extension. -/
def splitext (l : List Char) : List Char × List Char :=
  match splitAtLastDot l with
  | some (n, e) => if n.any (fun c => c ≠ '.') then (n, e) else (l, [])
  | none => (l, [])

/-- The candidate name `f"{name}-{counter}{ext}"` probed by
`_get_unique_filename`. -/
def candName (name ext : String) (counter : Nat) : String :=
  name ++ "-" ++ Nat.repr counter ++ ext

/-- The `while` loop of `_get_unique_filename`: try `name-k ext`,
`name-(k+1) ext`, … until a free name is found.  The fuel
`existing.length + 1` suffices because the candidates are pairwise distinct
strings, so they cannot all collide with `existing` (the fuel-exhausted
branch is provably unreachable). -/
def uniqueLoop (existing : List String) (name ext : String) : Nat → Nat → String
  | 0, k => candName name ext k
  | fuel + 1, k =>
    if candName name ext k ∈ existing then uniqueLoop existing name ext fuel (k + 1)
    else candName name ext k

/-- `file_copier._get_unique_filename`: keep the original name when free,
otherwise append `-1`, `-2`, … before the extension until a free name is
found. -/
def _get_unique_filename (existing : List String) (original : String) : String :=
  if original ∈ existing then
    uniqueLoop existing (String.mk (splitext original.data).1)
      (String.mk (splitext original.data).2) (existing.length + 1) 1
  else original

/-! ## Folder-shape predicates and the directory-tree model -/

/-- A node of the destination tree: a plain file, or a directory with an
ordered list of named children. -/
inductive Entry where
  | file : Entry
  | dir : List (String × Entry) → Entry

/-- `os.path.isdir`. -/
def entryIsDir : Entry → Bool
  | Entry.file => false
  | Entry.dir _ => true

/-- The children of a directory node (`os.listdir`); empty for a file. -/
def entryChildren : Entry → List (String × Entry)
  | Entry.file => []
  | Entry.dir cs => cs

/-- Python `str.split('.')`: split on every dot, keeping empty pieces. -/
def splitOnDot : List Char → List (List Char)
  | [] => [[]]
  | c :: rest =>
    if c == '.' then [] :: splitOnDot rest
    else
      match splitOnDot rest with
      | p :: ps => (c :: p) :: ps
      | [] => [[c]]

/-- Python `str.isdigit` (ASCII model): non-empty and all decimal digits. -/
def strIsDigit (s : String) : Bool :=
  decide (0 < s.data.length) && s.data.all Char.isDigit

/-- `file_copier.is_exact_day_folder`: the name splits on dots into three
all-digit parts and has exactly ten characters. -/
def is_exact_day_folder (folder_name : String) : Bool :=
  let parts := splitOnDot folder_name.data
  parts.length == 3 &&
  parts.all (fun p => decide (0 < p.length) && p.all Char.isDigit) &&
  folder_name.data.length == 10

/-- `file_copier.is_month_folder` (the same test is inlined in
`restructure_for_smart_mode`): seven characters, all digits after removing
the dots, and a dot at index 4. -/
def is_month_folder (folder_name : String) : Bool :=
  folder_name.data.length == 7 &&
  strIsDigit (String.mk (folder_name.data.filter (fun c => c ≠ '.'))) &&
  folder_name.data.getD 4 ' ' == '.'

/-- The year-folder test inlined in `restructure_for_smart_mode`
(`is_year_folder`): four characters, all digits. -/
def isYearFolderName (s : String) : Bool :=
  strIsDigit s && s.data.length == 4

/-! ## Smart-mode consolidation (`file_copier.restructure_for_smart_mode`) -/

/-- Moving the day folder's items up into the month folder: `present` is
the set of names currently existing in the month folder (initially the day
folder itself, still present during the move), `acc` the items moved so
far.  A name collision is resolved with `_get_unique_filename`. -/
def mergeUpGo : List (String × Entry) → List String → List (String × Entry) →
    List (String × Entry)
  | [], _, acc => acc
  | (n, e) :: rest, present, acc =>
    let n' := if n ∈ present then _get_unique_filename present n else n
    mergeUpGo rest (present ++ [n']) (acc ++ [(n', e)])

/-- Contents of the month folder after merging its single day folder
`dayName` (whose items are `dayItems`) and removing the emptied day
folder. -/
def mergeUp (dayName : String) (dayItems : List (String × Entry)) :
    List (String × Entry) :=
  mergeUpGo dayItems [dayName] []

/-- Body of the month-level loop of `restructure_for_smart_mode`: split the
month folder's items into exact-day subfolders and everything else; when
there is exactly one day subfolder and nothing else, merge it up (returning
the new contents and one performed merge). -/
def processMonth (items : List (String × Entry)) : List (String × Entry) × Nat :=
  let dayFolders := items.filter (fun it => entryIsDir it.2 && is_exact_day_folder it.1)
  let otherItems := items.filter (fun it => !(entryIsDir it.2 && is_exact_day_folder it.1))
  if dayFolders.length == 1 && otherItems.isEmpty then
    match dayFolders with
    | (dn, e) :: _ => (mergeUp dn (entryChildren e), 1)
    | [] => (items, 0)
  else (items, 0)

/-- The month-level loop over a year folder's children: month-shaped
directories are processed with `processMonth`; everything else is left
untouched. -/
def processYearGo : List (String × Entry) → List (String × Entry) × Nat
  | [] => ([], 0)
  | (n, Entry.dir cs) :: rest =>
    let tail := processYearGo rest
    if is_month_folder n then
      let r := processMonth cs
      ((n, Entry.dir r.1) :: tail.1, r.2 + tail.2)
    else ((n, Entry.dir cs) :: tail.1, tail.2)
  | (n, Entry.file) :: rest =>
    let tail := processYearGo rest
    ((n, Entry.file) :: tail.1, tail.2)

/-- The year-level loop over the destination root's children: four-digit
directories are processed with `processYearGo`; everything else is left
untouched. -/
def restructureGo : List (String × Entry) → List (String × Entry) × Nat
  | [] => ([], 0)
  | (n, Entry.dir cs) :: rest =>
    let tail := restructureGo rest
    if isYearFolderName n then
      let r := processYearGo cs
      ((n, Entry.dir r.1) :: tail.1, r.2 + tail.2)
    else ((n, Entry.dir cs) :: tail.1, tail.2)
  | (n, Entry.file) :: rest =>
    let tail := restructureGo rest
    ((n, Entry.file) :: tail.1, tail.2)

/-- `file_copier.restructure_for_smart_mode`: the consolidation pass over
the destination root; returns the new tree and the number of merges. -/
def restructure_for_smart_mode (root : List (String × Entry)) :
    List (String × Entry) × Nat :=
  restructureGo root

/-- Spec-side safety condition at the month level: every exact-day
subdirectory of the month folder contains only plain files. -/
def monthChildrenSafe (items : List (String × Entry)) : Bool :=
  items.all (fun it =>
    match it.2 with
    | Entry.file => true
    | Entry.dir cs => !is_exact_day_folder it.1 || cs.all (fun c => !entryIsDir c.2))

/-- Spec-side safety condition at the year level. -/
def yearChildrenSafe (items : List (String × Entry)) : Bool :=
  items.all (fun it =>
    match it.2 with
    | Entry.file => true
    | Entry.dir cs => !is_month_folder it.1 || monthChildrenSafe cs)

/-- Spec-side safety condition for a destination root: inside every
four-digit year directory, every month-shaped directory's exact-day
subdirectories contain only plain files (the shape the placement pass
itself produces). -/
def rootChildrenSafe (items : List (String × Entry)) : Bool :=
  items.all (fun it =>
    match it.2 with
    | Entry.file => true
    | Entry.dir cs => !isYearFolderName it.1 || yearChildrenSafe cs)

/-! ## File placement (`file_copier.copy_file_to_destination`)

Paths are modelled as lists of components (inputs are absolute and
normalized, so `os.path.abspath` comparison is component-list equality).
The destination folder's current contents are the `existing` name list;
filesystem failures (folder creation, the copy/move call) are outside the
model — the embedding covers the non-exceptional execution paths. -/

/-- Result triple of `copy_file_to_destination`:
`(успех, путь_к_новому_файлу_или_None, сообщение_или_None)`. -/
structure CopyResult where
  success : Bool
  destPath : Option (List String)
  message : Option String
deriving DecidableEq, Repr

/-- The log message of the identical-file move skip. -/
def skipIdenticalMsg : String :=
  "Пропущено (идентичный файл, перемещение не требуется)"

/-- Target-folder computation of `copy_file_to_destination`, including the
double-nesting checks against the destination folder's own basename. -/
def targetFolderFor (destinationPath : List String) (year month day : String)
    (grouping : String) : List String :=
  let destBasename := destinationPath.getLastD ""
  if destBasename = month then
    if grouping = "day" ∨ grouping = "smart" then destinationPath ++ [day]
    else destinationPath
  else if destBasename = year then
    if grouping = "day" ∨ grouping = "smart" then destinationPath ++ [month, day]
    else destinationPath ++ [month]
  else
    if grouping = "day" ∨ grouping = "smart" then destinationPath ++ [year, month, day]
    else destinationPath ++ [year, month]

/-- `file_copier.copy_file_to_destination` (non-exceptional paths): compute
the target folder, resolve duplicates, skip an identical-path move, and
otherwise perform the copy/move.  The second component is the filesystem
action performed: `none` for no change, or `some (src, dst)`. -/
def copy_file_to_destination (existing : List String) (filePath : List String)
    (destinationPath : List String) (year month day : String) (move : Bool)
    (grouping : String) : CopyResult × Option (List String × List String) :=
  let filename := filePath.getLastD ""
  let targetFolder := targetFolderFor destinationPath year month day grouping
  let targetFilename := _get_unique_filename existing filename
  let targetFilePath := targetFolder ++ [targetFilename]
  if move ∧ filePath = targetFilePath then
    (⟨false, none, some skipIdenticalMsg⟩, none)
  else
    (⟨true, some targetFilePath, none⟩, some (filePath, targetFilePath))

/-! ## Statistics (`logger_config.LoggerStats`) and the processing loop -/

/-- `logger_config.LoggerStats`: the per-run counters. -/
structure LoggerStats where
  total_files : Nat := 0
  successful : Nat := 0
  failed : Nat := 0
  skipped : Nat := 0
  no_date : Nat := 0
  errors : List String := []
deriving DecidableEq, Repr

/-- `LoggerStats.increment_success`. -/
def LoggerStats.increment_success (s : LoggerStats) : LoggerStats :=
  { s with successful := s.successful + 1 }

/-- `LoggerStats.increment_failed(error_msg)`: count the failure and record
a non-empty message. -/
def LoggerStats.increment_failed (s : LoggerStats) (msg : Option String) : LoggerStats :=
  { s with
    failed := s.failed + 1
    errors := match msg with
      | some m => if m ≠ "" then s.errors ++ [m] else s.errors
      | none => s.errors }

/-- `LoggerStats.increment_skipped`. -/
def LoggerStats.increment_skipped (s : LoggerStats) : LoggerStats :=
  { s with skipped := s.skipped + 1 }

/-- `LoggerStats.increment_no_date`. -/
def LoggerStats.increment_no_date (s : LoggerStats) : LoggerStats :=
  { s with no_date := s.no_date + 1 }

/-- The statistics update the driver performs for a dated file, from the
outcome of `copy_file_to_destination` (`media_organizer.process_files`,
success and failure branches). -/
def driverUpdateDated (success : Bool) (errorMsg : Option String)
    (s : LoggerStats) : LoggerStats :=
  if success then s.increment_success else s.increment_failed errorMsg

/-- What the processing loop observes about one enumerated media file: the
resolved date, and the success flags and error messages of the placement
call that would be made on each branch. -/
structure FileObservation where
  date : Option PyDateTime
  copyOk : Bool
  copyErr : Option String
  noDateOk : Bool
  noDateErr : Option String

/-- The per-file statistics update of `media_organizer.process_files`:
dated files count as success or failure of the placement; dateless files
are placed in the unknown-date folder (success or failure) when
`process_no_date` is set and are skipped otherwise. -/
def stepStats (process_no_date : Bool) (f : FileObservation)
    (s : LoggerStats) : LoggerStats :=
  match f.date with
  | some _ =>
    if f.copyOk then s.increment_success else s.increment_failed f.copyErr
  | none =>
    if process_no_date then
      if f.noDateOk then s.increment_no_date else s.increment_failed f.noDateErr
    else s.increment_skipped

/-- The processing loop of `process_files` over the enumerated files. -/
def processFilesLoop (files : List FileObservation) (process_no_date : Bool)
    (s : LoggerStats) : LoggerStats :=
  match files with
  | [] => s
  | f :: rest => processFilesLoop rest process_no_date (stepStats process_no_date f s)

/-- One full run's statistics: a fresh `LoggerStats` whose `total_files` is
set to the number of enumerated files, then the processing loop. -/
def runStats (files : List FileObservation) (process_no_date : Bool) : LoggerStats :=
  processFilesLoop files process_no_date { total_files := files.length }

/-- The sum of the four outcome counters. -/
def statsSum (s : LoggerStats) : Nat :=
  s.successful + s.failed + s.skipped + s.no_date

/-! ## Date resolution (`media_organizer.determine_file_date`)

The metadata source (`metadata_reader.extract_date_from_metadata`) is an
external-tool adapter; its answer for the file at hand is passed in as a
value. -/

/-- `media_organizer.determine_file_date`: filename first, then metadata. -/
def determine_file_date (metadataDate : Option PyDateTime)
    (filename : String) : Option PyDateTime :=
  match extract_date_from_filename filename.data with
  | some d => some d
  | none =>
    match metadataDate with
    | some d => some d
    | none => none

/-! ## Decimal-representation helpers

`candName` embeds Python's `f"{name}-{counter}{ext}"`; the proofs about
`_get_unique_filename` need that distinct counters yield distinct
candidate names, i.e. that `Nat.repr` is injective.  `natChars` is a
structurally transparent version of core's fuelled `Nat.toDigitsCore`. -/

/-- The decimal digit characters of `n`, most significant first. -/
def natChars (n : Nat) : List Char :=
  if n < 10 then [Nat.digitChar n]
  else natChars (n / 10) ++ [Nat.digitChar (n % 10)]
decreasing_by exact Nat.div_lt_self (by omega) (by omega)

/-- Numeric value of a decimal character list (inverse of `natChars`). -/
def decValue (l : List Char) : Nat :=
  l.foldl (fun a c => 10 * a + (c.toNat - 48)) 0


/-! ## Theorems -/

/-- The spec-side leap-year rule coincides with the CPython test. -/
theorem specIsLeap_eq_py (y : Int) : specIsLeap y = pyIsLeapYear y := by
  simp only [specIsLeap, pyIsLeapYear, decide_eq_decide]
  omega

set_option maxHeartbeats 1000000 in
/-- The spec-side days-in-month table coincides with the CPython one. -/
theorem specDaysInMonth_eq_py (y m : Int) : specDaysInMonth y m = pyDaysInMonth y m := by
  simp only [specDaysInMonth, pyDaysInMonth, specIsLeap_eq_py]
  split_ifs <;> omega

/-- Every month length is at most 31. -/
theorem pyDaysInMonth_le_31 (y m : Int) : pyDaysInMonth y m ≤ 31 := by
  simp only [pyDaysInMonth]
  split_ifs <;> omega

/-- The validator accepts exactly the real Gregorian dates with year in
[1900, 2099]. -/
theorem is_valid_date_iff (y m d : Int) :
    _is_valid_date y m d = true ↔ 1900 ≤ y ∧ y ≤ 2099 ∧ isRealGregorianDay y m d := by
  have h31 := pyDaysInMonth_le_31 y m
  have hdm := specDaysInMonth_eq_py y m
  simp only [_is_valid_date, pyDatetimeOk, isRealGregorianDay, decide_eq_true_eq, hdm]
  split_ifs with h1 h2 h3
  · simp only [Bool.false_eq_true, false_iff]; omega
  · simp only [Bool.false_eq_true, false_iff]; omega
  · simp only [Bool.false_eq_true, false_iff]; omega
  · rw [decide_eq_true_eq]
    omega

/-- C1: for every integer triple, `_is_valid_date` holds iff the year lies
in [1900, 2099] and the triple is a real Gregorian calendar day, with leap
years handled correctly (the embedding is a pure function, so there are no
side effects); in particular Feb 29 is accepted in 2024 and 2000 and
rejected in 2023 and 1900. -/
theorem claim_C1_validator :
    (∀ y m d : Int, _is_valid_date y m d = true ↔
      1900 ≤ y ∧ y ≤ 2099 ∧ isRealGregorianDay y m d)
    ∧ _is_valid_date 2024 2 29 = true ∧ _is_valid_date 2000 2 29 = true
    ∧ _is_valid_date 2023 2 29 = false ∧ _is_valid_date 1900 2 29 = false :=
  ⟨is_valid_date_iff, by decide, by decide, by decide, by decide⟩

/-- C2: the three literal scenario filenames extract as the specification
states: camera-style timestamp with time of day, day-month-year delimited
form with a zero time, and no date at all for `IMG_2021.jpg`. -/
theorem claim_C2_literal_examples :
    extract_date_from_filename "IMG_20250823_192714.jpg".data =
        some ⟨2025, 8, 23, 19, 27, 14⟩
    ∧ extract_date_from_filename "23.08.2025_vacation.jpg".data =
        some ⟨2025, 8, 23, 0, 0, 0⟩
    ∧ extract_date_from_filename "IMG_2021.jpg".data = none :=
  ⟨by decide, by decide, by decide⟩

/-- Unfolding of the pattern loop on a non-empty pattern list: the head
pattern's first match is validated, and on any failure the loop continues
with the remaining patterns. -/
theorem tryPatterns_cons (m : List Char → List Char → Option Groups) (fmt : DateFmt)
    (rest : List ((List Char → List Char → Option Groups) × DateFmt)) (name : List Char) :
    tryPatterns ((m, fmt) :: rest) name =
      match (searchFrom m [] name).bind (handleMatch fmt) with
      | some dt => some dt
      | none => tryPatterns rest name := by
  simp only [tryPatterns]
  cases hs : searchFrom m [] name with
  | none => rfl
  | some gs =>
    cases hh : handleMatch fmt gs with
    | none => rfl
    | some dt => rfl

/-- The pattern loop yields nothing exactly when, for every pattern, either
no match exists or the first match fails validation. -/
theorem tryPatterns_none_iff (ps : List ((List Char → List Char → Option Groups) × DateFmt))
    (name : List Char) :
    tryPatterns ps name = none ↔
      ∀ p ∈ ps, (searchFrom p.1 [] name).bind (handleMatch p.2) = none := by
  induction ps with
  | nil => simp [tryPatterns]
  | cons p rest ih =>
    obtain ⟨m, fmt⟩ := p
    rw [tryPatterns_cons]
    cases hb : (searchFrom m [] name).bind (handleMatch fmt) with
    | some dt =>
      simp only []
      constructor
      · intro h; cases h
      · intro h
        have := h (m, fmt) (List.mem_cons_self _ _)
        rw [hb] at this
        cases this
    | none =>
      simp only []
      rw [ih]
      constructor
      · intro h q hq
        rcases List.mem_cons.mp hq with h1 | h2
        · rw [h1]; exact hb
        · exact h q h2
      · intro h q hq
        exact h q (List.mem_cons_of_mem _ hq)

/-- C3: for every filename, the parser returns no date exactly when every
pattern, tried in the fixed priority order, either has no match in the
extension-stripped name or its first match is rejected by the validator
(further match positions of the same pattern are never consulted); in
particular `9999-99-99_2025-08-23.jpg` yields no date even though a later
match position of the same delimited year-first pattern carries the valid
date 2025-08-23. -/
theorem claim_C3_first_match_per_pattern :
    (∀ name : List Char, extract_date_from_filename name = none ↔
      ∀ p ∈ date_patterns,
        (searchFrom p.1 [] (stripLastExt name)).bind (handleMatch p.2) = none)
    ∧ extract_date_from_filename "9999-99-99_2025-08-23.jpg".data = none
    ∧ (searchFrom matchP2 []
        ((stripLastExt "9999-99-99_2025-08-23.jpg".data).drop 11)).bind
        (handleMatch DateFmt.ymd) = some ⟨2025, 8, 23, 0, 0, 0⟩ :=
  ⟨fun name => tryPatterns_none_iff date_patterns (stripLastExt name),
   by decide, by decide⟩

/-- Decomposition of a successful `takeCount`: it consumes exactly `n`
characters, all satisfying the class test. -/
theorem takeCount_sound (p : Char → Bool) :
    ∀ (n : Nat) (s t r : List Char), takeCount p n s = some (t, r) →
      t.length = n ∧ s = t ++ r ∧ t.all p = true := by
  intro n
  induction n with
  | zero =>
    intro s t r h
    simp only [takeCount, Option.some.injEq, Prod.mk.injEq] at h
    obtain ⟨h1, h2⟩ := h
    subst h1; subst h2
    simp
  | succ n ih =>
    intro s t r h
    cases s with
    | nil => simp [takeCount] at h
    | cons c s2 =>
      simp only [takeCount] at h
      by_cases hp : p c
      · rw [if_pos hp] at h
        cases htc : takeCount p n s2 with
        | none => rw [htc] at h; cases h
        | some pr =>
          obtain ⟨t2, r2⟩ := pr
          rw [htc] at h
          obtain ⟨hl, hs, ha⟩ := ih s2 t2 r2 htc
          simp only [Option.some.injEq, Prod.mk.injEq] at h
          obtain ⟨h1, h2⟩ := h
          subst h1
          subst h2
          subst hs
          simp [hl, ha, hp]
      · rw [if_neg hp] at h; cases h

/-- A successful hex-guarded bare-digit match certifies the guards: the
character before the run (if any) and the character after the consumed
`a + b + c` digits (if any) are not hexadecimal digits, and the match
consumed exactly `a + b + c` digit characters. -/
theorem bareDigits_guard (a b c : Nat) (before s : List Char) (gs : Groups)
    (h : bareDigits a b c before s = some gs) :
    (∀ x, before.head? = some x → isHexDigitChar x = false)
    ∧ (∀ q, (s.drop (a + b + c)).head? = some q → isHexDigitChar q = false)
    ∧ (s.take (a + b + c)).all Char.isDigit = true ∧ a + b + c ≤ s.length := by
  unfold bareDigits at h
  have hbehind : noHexBefore before = true := by
    by_contra hcon
    rw [if_neg hcon] at h
    cases h
  rw [if_pos hbehind] at h
  cases h1 : takeCount Char.isDigit a s with
  | none => simp only [h1] at h; cases h
  | some pr1 =>
    obtain ⟨t1, r1⟩ := pr1
    simp only [h1] at h
    cases h2 : takeCount Char.isDigit b r1 with
    | none => simp only [h2] at h; cases h
    | some pr2 =>
      obtain ⟨t2, r2⟩ := pr2
      simp only [h2] at h
      cases h3 : takeCount Char.isDigit c r2 with
      | none => simp only [h3] at h; cases h
      | some pr3 =>
        obtain ⟨t3, r3⟩ := pr3
        simp only [h3] at h
        have hahead : noHexAhead r3 = true := by
          by_contra hcon
          rw [if_neg hcon] at h
          cases h
        obtain ⟨hl1, hs1, ha1⟩ := takeCount_sound Char.isDigit a s t1 r1 h1
        obtain ⟨hl2, hs2, ha2⟩ := takeCount_sound Char.isDigit b r1 t2 r2 h2
        obtain ⟨hl3, hs3, ha3⟩ := takeCount_sound Char.isDigit c r2 t3 r3 h3
        have hdecomp : s = (t1 ++ t2 ++ t3) ++ r3 := by
          subst hs1; subst hs2; subst hs3; simp
        have hlen : (t1 ++ t2 ++ t3).length = a + b + c := by
          simp only [List.length_append, hl1, hl2, hl3]
        refine ⟨?_, ?_, ?_, ?_⟩
        · intro x hx
          cases before with
          | nil => cases hx
          | cons pch rest =>
            simp only [List.head?, Option.some.injEq] at hx
            subst hx
            simpa [noHexBefore] using hbehind
        · intro q hq
          rw [hdecomp, List.drop_left' hlen] at hq
          cases r3 with
          | nil => cases hq
          | cons qc rest =>
            simp only [List.head?, Option.some.injEq] at hq
            subst hq
            simpa [noHexAhead] using hahead
        · rw [hdecomp, List.take_left' hlen]
          simp only [List.all_append]
          simp [ha1, ha2, ha3]
        · rw [hdecomp]
          simp only [List.length_append]
          omega

/-- C4 counterexample: in `IMG_20250823E.jpg` the eight-digit run
`20250823` is immediately followed by the hexadecimal digit `E`, yet the
parser extracts 2025-08-23 from it (the camera-prefix pattern has no hex
guard), so a hex-adjacent eight-digit run can be interpreted as a date. -/
theorem claim_C4_counterexample :
    hasHexAdjacentRun (stripLastExt "IMG_20250823E.jpg".data) = true
    ∧ extract_date_from_filename "IMG_20250823E.jpg".data =
        some ⟨2025, 8, 23, 0, 0, 0⟩ :=
  ⟨by decide, by decide⟩

/-- C4 (amended): the two bare-digit patterns (priority 3 and 6) never
match a digit run that is adjacent to a hexadecimal digit character on
either side — any successful match certifies that the characters
immediately before and after the eight consumed digits are not hex
digits — and the UUID-style filename of the specification yields no date.
(The camera-prefix pattern 1 carries no such guard, see the
counterexample.) -/
theorem claim_C4_amended :
    (∀ before s gs, matchP3 before s = some gs →
      (∀ x, before.head? = some x → isHexDigitChar x = false)
      ∧ (∀ q, (s.drop 8).head? = some q → isHexDigitChar q = false)
      ∧ (s.take 8).all Char.isDigit = true ∧ 8 ≤ s.length)
    ∧ (∀ before s gs, matchP6 before s = some gs →
      (∀ x, before.head? = some x → isHexDigitChar x = false)
      ∧ (∀ q, (s.drop 8).head? = some q → isHexDigitChar q = false)
      ∧ (s.take 8).all Char.isDigit = true ∧ 8 ≤ s.length)
    ∧ extract_date_from_filename
        "1DE4E6D6-D62E-4DB1-A1B6-BBF202001B9159E.jpg".data = none := by
  refine ⟨fun before s gs h => ?_, fun before s gs h => ?_, by decide⟩
  · exact bareDigits_guard 4 2 2 before s gs h
  · exact bareDigits_guard 2 2 4 before s gs h

/-- Witness for the amended C4: concrete successful bare-digit matches at
`20250823x` and `23082025z` certify that their following characters are
not hexadecimal digits. -/
theorem claim_C4_amended_witness :
    isHexDigitChar 'x' = false ∧ isHexDigitChar 'z' = false :=
  ⟨(claim_C4_amended.1 [] "20250823x".data
      [some "2025".data, some "08".data, some "23".data] (by decide)).2.1
      'x' (by decide),
   (claim_C4_amended.2.1 [] "23082025z".data
      [some "23".data, some "08".data, some "2025".data] (by decide)).2.1
      'z' (by decide)⟩

/-- C5: the day-folder shape check of the consolidator contradicts its own
documentation ("ТОЧНО формату 'YYYY.MM.DD'"): `20250.8.23` is not of the
shape `YYYY.MM.DD`, yet `is_exact_day_folder` accepts it and
`restructure_for_smart_mode` merges a month folder whose only child is a
directory of that name. -/
theorem claim_C5_day_shape_divergence :
    is_exact_day_folder "20250.8.23" = true
    ∧ restructure_for_smart_mode
        [("2025", Entry.dir [("2025.08", Entry.dir
          [("20250.8.23", Entry.dir [("a", Entry.file)])])])]
      = ([("2025", Entry.dir [("2025.08", Entry.dir [("a", Entry.file)])])], 1) :=
  ⟨by decide, rfl⟩

/-- C6 counterexample: on a tree whose lone day folder contains exactly one
day-named subfolder, the first consolidation run hoists that subfolder into
the month folder, and a second run then performs one further merge — the
pass is not idempotent on every destination tree. -/
theorem claim_C6_counterexample :
    (restructure_for_smart_mode (restructure_for_smart_mode
      [("2025", Entry.dir [("2025.08", Entry.dir [("2025.08.23", Entry.dir
        [("2025.08.24", Entry.dir [("a", Entry.file)])])])])]).1).2 = 1 := rfl

/-- The merge condition of `processMonth` holds exactly when the month
folder's children consist of a single exact-day directory. -/
theorem month_merge_cond_iff (items : List (String × Entry)) :
    ((items.filter fun it => entryIsDir it.2 && is_exact_day_folder it.1).length == 1 &&
     (items.filter fun it => !(entryIsDir it.2 && is_exact_day_folder it.1)).isEmpty) = true ↔
    ∃ dn cs, items = [(dn, Entry.dir cs)] ∧ is_exact_day_folder dn = true := by
  constructor
  · intro h
    rw [Bool.and_eq_true] at h
    obtain ⟨h1, h2⟩ := h
    have hall : ∀ it ∈ items, (entryIsDir it.2 && is_exact_day_folder it.1) = true := by
      intro it hit
      by_contra hno
      have : it ∈ items.filter fun it => !(entryIsDir it.2 && is_exact_day_folder it.1) := by
        rw [List.mem_filter]
        exact ⟨hit, by simp [hno]⟩
      rw [List.isEmpty_iff] at h2
      rw [h2] at this
      cases this
    have hfilter : items.filter (fun it => entryIsDir it.2 && is_exact_day_folder it.1) = items :=
      List.filter_eq_self.mpr hall
    rw [hfilter] at h1
    rw [beq_iff_eq, List.length_eq_one] at h1
    obtain ⟨it, hits⟩ := h1
    have hp := hall it (by rw [hits]; exact List.mem_singleton_self it)
    rw [Bool.and_eq_true] at hp
    obtain ⟨n, e⟩ := it
    cases e with
    | file => simp [entryIsDir] at hp
    | dir cs => exact ⟨n, cs, hits, hp.2⟩
  · rintro ⟨dn, cs, rfl, hday⟩
    simp [List.filter, entryIsDir, hday]

/-- `mergeUpGo` only rearranges and renames: any property of the entries
themselves carries over from the inputs to the merged list. -/
theorem mergeUpGo_entries (Q : Entry → Bool) :
    ∀ (items : List (String × Entry)) (present : List String) (acc : List (String × Entry)),
      items.all (fun it => Q it.2) = true → acc.all (fun it => Q it.2) = true →
      (mergeUpGo items present acc).all (fun it => Q it.2) = true := by
  intro items
  induction items with
  | nil =>
    intro present acc _ hacc
    simpa [mergeUpGo] using hacc
  | cons it rest ih =>
    intro present acc hall hacc
    obtain ⟨n, e⟩ := it
    simp only [List.all_cons, Bool.and_eq_true] at hall
    simp only [mergeUpGo]
    exact ih _ _ hall.2 (by simp [List.all_append, hacc, hall.1])

/-- A month folder with no directory children is left unchanged with no
merge performed. -/
theorem processMonth_no_dirs (items : List (String × Entry))
    (h : items.all (fun it => !entryIsDir it.2) = true) :
    processMonth items = (items, 0) := by
  have hdf : items.filter (fun it => entryIsDir it.2 && is_exact_day_folder it.1) = [] := by
    rw [List.filter_eq_nil_iff]
    intro a ha
    have := List.all_eq_true.mp h a ha
    simp only [Bool.not_eq_true'] at this
    simp [this]
  unfold processMonth
  rw [hdf]
  simp

/-- A month folder failing the merge condition is left unchanged with no
merge performed. -/
theorem processMonth_cond_false (items : List (String × Entry))
    (h : ((items.filter fun it => entryIsDir it.2 && is_exact_day_folder it.1).length == 1 &&
      (items.filter fun it => !(entryIsDir it.2 && is_exact_day_folder it.1)).isEmpty) ≠ true) :
    processMonth items = (items, 0) := by
  unfold processMonth
  rw [if_neg h]

/-- A month folder consisting of exactly one exact-day directory is merged. -/
theorem processMonth_single_day (dn : String) (cs : List (String × Entry))
    (hday : is_exact_day_folder dn = true) :
    processMonth [(dn, Entry.dir cs)] = (mergeUp dn cs, 1) := by
  unfold processMonth
  simp [List.filter, entryIsDir, hday, entryChildren]

/-- After one `processMonth` pass over a safe month folder, a second pass
changes nothing and performs no merge. -/
theorem processMonth_stable (items : List (String × Entry))
    (hsafe : monthChildrenSafe items = true) :
    processMonth (processMonth items).1 = ((processMonth items).1, 0) := by
  by_cases hc : ((items.filter fun it => entryIsDir it.2 && is_exact_day_folder it.1).length == 1 &&
      (items.filter fun it => !(entryIsDir it.2 && is_exact_day_folder it.1)).isEmpty) = true
  · obtain ⟨dn, cs, hitems, hday⟩ := (month_merge_cond_iff items).mp hc
    subst hitems
    rw [processMonth_single_day dn cs hday]
    have hcs : cs.all (fun c => !entryIsDir c.2) = true := by
      simp only [monthChildrenSafe, List.all_cons, Bool.and_eq_true] at hsafe
      have := hsafe.1
      rw [hday] at this
      simpa using this
    have hmerged : (mergeUp dn cs).all (fun it => !entryIsDir it.2) = true :=
      mergeUpGo_entries (fun e => !entryIsDir e) cs [dn] [] hcs (by simp)
    exact processMonth_no_dirs (mergeUp dn cs) hmerged
  · rw [processMonth_cond_false items hc]
    exact processMonth_cond_false items hc

/-- After one month-level pass over a safe year folder, a second pass
changes nothing and performs no merge. -/
theorem processYearGo_stable (items : List (String × Entry))
    (hsafe : yearChildrenSafe items = true) :
    processYearGo (processYearGo items).1 = ((processYearGo items).1, 0) := by
  induction items with
  | nil => simp [processYearGo]
  | cons it rest ih =>
    obtain ⟨n, e⟩ := it
    simp only [yearChildrenSafe, List.all_cons, Bool.and_eq_true] at hsafe
    have ihr := ih hsafe.2
    cases e with
    | file =>
      simp only [processYearGo]
      rw [ihr]
    | dir cs =>
      by_cases hm : is_month_folder n = true
      · have hms : monthChildrenSafe cs = true := by
          have := hsafe.1
          rw [hm] at this
          simpa using this
        simp only [processYearGo, hm, if_pos]
        rw [processMonth_stable cs hms, ihr]
        rfl
      · simp only [processYearGo, hm, if_neg, Bool.false_eq_true]
        rw [ihr]
        simp [hm]

/-- After one consolidation pass over a safe destination root, a second
pass changes nothing and performs no merge. -/
theorem restructureGo_stable (items : List (String × Entry))
    (hsafe : rootChildrenSafe items = true) :
    restructureGo (restructureGo items).1 = ((restructureGo items).1, 0) := by
  induction items with
  | nil => simp [restructureGo]
  | cons it rest ih =>
    obtain ⟨n, e⟩ := it
    simp only [rootChildrenSafe, List.all_cons, Bool.and_eq_true] at hsafe
    have ihr := ih hsafe.2
    cases e with
    | file =>
      simp only [restructureGo]
      rw [ihr]
    | dir cs =>
      by_cases hy : isYearFolderName n = true
      · have hys : yearChildrenSafe cs = true := by
          have := hsafe.1
          rw [hy] at this
          simpa using this
        simp only [restructureGo, hy, if_pos]
        rw [processYearGo_stable cs hys, ihr]
        rfl
      · simp only [restructureGo, hy, if_neg, Bool.false_eq_true]
        rw [ihr]
        simp [hy]

/-- C6 (amended): the consolidation pass is idempotent on every destination
tree in which each exact-day folder inside a month folder contains only
plain files — the shape the placement pass itself produces; an immediate
second run then performs zero merges.  (On arbitrary trees this fails: see
the counterexample, where a day folder contains a single day-named
subfolder.) -/
theorem claim_C6_amended (root : List (String × Entry))
    (h : rootChildrenSafe root = true) :
    (restructure_for_smart_mode (restructure_for_smart_mode root).1).2 = 0 := by
  have hs := restructureGo_stable root h
  unfold restructure_for_smart_mode
  rw [hs]

/-- Witness for the amended C6: a concrete safe tree (one year, one month,
one day folder holding two files) is consolidated once and a second run
merges nothing. -/
theorem claim_C6_amended_witness :
    rootChildrenSafe
      [("2025", Entry.dir [("2025.08", Entry.dir [("2025.08.23", Entry.dir
        [("a.jpg", Entry.file), ("b.jpg", Entry.file)])])])] = true
    ∧ (restructure_for_smart_mode (restructure_for_smart_mode
        [("2025", Entry.dir [("2025.08", Entry.dir [("2025.08.23", Entry.dir
          [("a.jpg", Entry.file), ("b.jpg", Entry.file)])])])]).1).2 = 0 :=
  ⟨by decide, claim_C6_amended _ (by decide)⟩

/-- A digit character below ten decodes back to its value. -/
theorem digitChar_decode (k : Nat) (hk : k < 10) : (Nat.digitChar k).toNat - 48 = k := by
  interval_cases k <;> decide

/-- Decoding after appending one digit character. -/
theorem decValue_append_digit (l : List Char) (c : Char) :
    decValue (l ++ [c]) = 10 * decValue l + (c.toNat - 48) := by
  simp [decValue, List.foldl_append]

/-- `natChars` prints the number it was given. -/
theorem decValue_natChars (n : Nat) : decValue (natChars n) = n := by
  induction n using Nat.strong_induction_on with
  | _ n ih =>
    rw [natChars]
    by_cases h : n < 10
    · rw [if_pos h]
      have : decValue [Nat.digitChar n] = (Nat.digitChar n).toNat - 48 := by
        simp [decValue]
      rw [this, digitChar_decode n h]
    · rw [if_neg h]
      rw [decValue_append_digit,
        ih (n / 10) (Nat.div_lt_self (by omega) (by omega)),
        digitChar_decode (n % 10) (by omega)]
      omega

/-- Core's fuelled decimal printer agrees with `natChars` whenever the fuel
exceeds the printed number. -/
theorem toDigitsCore_eq_natChars :
    ∀ (fuel n : Nat) (ds : List Char), n < fuel →
      Nat.toDigitsCore 10 fuel n ds = natChars n ++ ds := by
  intro fuel
  induction fuel with
  | zero => intro n ds h; omega
  | succ fuel ih =>
    intro n ds h
    simp only [Nat.toDigitsCore]
    by_cases h0 : n / 10 = 0
    · rw [if_pos h0]
      rw [natChars, if_pos (by omega : n < 10)]
      have : n % 10 = n := Nat.mod_eq_of_lt (by omega)
      rw [this]
      rfl
    · rw [if_neg h0]
      rw [ih (n / 10) _ (by omega)]
      conv_rhs => rw [natChars, if_neg (by omega : ¬ n < 10)]
      simp

/-- `Nat.repr` is injective. -/
theorem nat_repr_injective {a b : Nat} (h : Nat.repr a = Nat.repr b) : a = b := by
  have ha : Nat.repr a = (natChars a ++ []).asString := by
    rw [show Nat.repr a = (Nat.toDigitsCore 10 (a + 1) a []).asString from rfl,
      toDigitsCore_eq_natChars (a + 1) a [] (by omega)]
  have hb : Nat.repr b = (natChars b ++ []).asString := by
    rw [show Nat.repr b = (Nat.toDigitsCore 10 (b + 1) b []).asString from rfl,
      toDigitsCore_eq_natChars (b + 1) b [] (by omega)]
  rw [ha, hb] at h
  have hdata := congrArg String.data h
  simp only [List.asString] at hdata
  have : natChars a = natChars b := by simpa using hdata
  have hv := decValue_natChars a
  rw [this, decValue_natChars b] at hv
  omega

/-- Distinct probe counters yield distinct candidate filenames. -/
theorem candName_injective (name ext : String) {i j : Nat}
    (h : candName name ext i = candName name ext j) : i = j := by
  unfold candName at h
  have hd := congrArg String.data h
  simp only [String.data_append] at hd
  have h1 := List.append_cancel_right hd
  have h2 := List.append_cancel_left h1
  exact nat_repr_injective (String.ext h2)

/-- Pigeonhole: among the first `existing.length + 1` candidate names, at
least one is not taken. -/
theorem exists_free_candidate (existing : List String) (name ext : String) :
    ∃ j, j < existing.length + 1 ∧ candName name ext (1 + j) ∉ existing := by
  by_contra hcon
  push_neg at hcon
  have hinj : Function.Injective fun j : Nat => candName name ext (1 + j) := by
    intro x y hxy
    have := candName_injective name ext hxy
    omega
  have hnd : ((List.range (existing.length + 1)).map
      (fun j => candName name ext (1 + j))).Nodup :=
    (List.nodup_range _).map hinj
  have hsub : ∀ x ∈ (List.range (existing.length + 1)).map
      (fun j => candName name ext (1 + j)), x ∈ existing := by
    intro x hx
    rw [List.mem_map] at hx
    obtain ⟨j, hj, rfl⟩ := hx
    rw [List.mem_range] at hj
    exact hcon j hj
  have h1 := List.toFinset_card_of_nodup hnd
  have h2 : ((List.range (existing.length + 1)).map
      (fun j => candName name ext (1 + j))).toFinset ⊆ existing.toFinset := by
    intro x hx
    rw [List.mem_toFinset] at hx ⊢
    exact hsub x hx
  have h3 := Finset.card_le_card h2
  have h4 : existing.toFinset.card ≤ existing.length := existing.toFinset_card_le
  simp only [List.length_map, List.length_range] at h1
  omega

/-- Behaviour of the probe loop when some candidate in the fuel window is
free: it stops at the first free candidate, every earlier candidate having
been found taken. -/
theorem uniqueLoop_spec (existing : List String) (name ext : String) :
    ∀ (fuel k : Nat), (∃ j, j < fuel ∧ candName name ext (k + j) ∉ existing) →
      ∃ j, j < fuel ∧ uniqueLoop existing name ext fuel k = candName name ext (k + j)
        ∧ candName name ext (k + j) ∉ existing
        ∧ ∀ i, i < j → candName name ext (k + i) ∈ existing := by
  intro fuel
  induction fuel with
  | zero =>
    intro k h
    obtain ⟨j, hj, _⟩ := h
    omega
  | succ fuel ih =>
    intro k h
    by_cases hk : candName name ext k ∈ existing
    · obtain ⟨j, hj, hfree⟩ := h
      have hj0 : j ≠ 0 := by
        intro h0
        rw [h0, Nat.add_zero] at hfree
        exact hfree hk
      have hwin : ∃ j2, j2 < fuel ∧ candName name ext ((k + 1) + j2) ∉ existing := by
        refine ⟨j - 1, by omega, ?_⟩
        have harith : (k + 1) + (j - 1) = k + j := by omega
        rw [harith]
        exact hfree
      obtain ⟨j2, hj2, heq, hfree2, hmin⟩ := ih (k + 1) hwin
      refine ⟨j2 + 1, by omega, ?_, ?_, ?_⟩
      · simp only [uniqueLoop, if_pos hk]
        rw [heq]
        congr 1
        omega
      · have harith : k + (j2 + 1) = (k + 1) + j2 := by omega
        rw [harith]
        exact hfree2
      · intro i hi
        cases i with
        | zero => simpa using hk
        | succ i2 =>
          have harith : k + (i2 + 1) = (k + 1) + i2 := by omega
          rw [harith]
          exact hmin i2 (by omega)
    · refine ⟨0, by omega, ?_, by simpa using hk, ?_⟩
      · simp only [uniqueLoop, if_neg hk]
        rw [Nat.add_zero]
      · intro i hi
        exact absurd hi (Nat.not_lt_zero i)

/-- `splitAtLastDot` decomposes its input. -/
theorem splitAtLastDot_append :
    ∀ (l n e : List Char), splitAtLastDot l = some (n, e) → n ++ e = l := by
  intro l
  induction l with
  | nil => intro n e h; cases h
  | cons c rest ih =>
    intro n e h
    simp only [splitAtLastDot] at h
    cases hr : splitAtLastDot rest with
    | some pr =>
      obtain ⟨n2, e2⟩ := pr
      rw [hr] at h
      simp only [Option.some.injEq, Prod.mk.injEq] at h
      obtain ⟨h1, h2⟩ := h
      subst h1
      subst h2
      have hrec := ih n2 e2 hr
      simp [hrec]
    | none =>
      rw [hr] at h
      by_cases hc : (c == '.') = true
      · rw [if_pos hc] at h
        simp only [Option.some.injEq, Prod.mk.injEq] at h
        obtain ⟨h1, h2⟩ := h
        subst h1
        subst h2
        rw [beq_iff_eq] at hc
        rw [hc]
        rfl
      · rw [if_neg hc] at h
        cases h

/-- `os.path.splitext` decomposes its input: stem и extension concatenate
back to the original name. -/
theorem splitext_append (l : List Char) : (splitext l).1 ++ (splitext l).2 = l := by
  unfold splitext
  cases h : splitAtLastDot l with
  | none => simp
  | some pr =>
    obtain ⟨n, e⟩ := pr
    by_cases ha : n.any (fun c => decide (c ≠ '.')) = true
    · simp only [ha, if_pos]
      exact splitAtLastDot_append l n e h
    · simp only [ha, if_neg, Bool.false_eq_true]
      simp

/-- `natChars` always prints at least one digit. -/
theorem natChars_length_pos (n : Nat) : 0 < (natChars n).length := by
  rw [natChars]
  split
  · exact Nat.zero_lt_one
  · simp

/-- The characters of `Nat.repr` are exactly `natChars`. -/
theorem repr_data_eq (k : Nat) : (Nat.repr k).data = natChars k := by
  rw [show Nat.repr k = (Nat.toDigitsCore 10 (k + 1) k []).asString from rfl,
    toDigitsCore_eq_natChars (k + 1) k [] (by omega)]
  simp [List.asString]

/-- A probe candidate is two or more characters longer than the original
name, hence never equal to it. -/
theorem candName_ne_orig (orig : String) (k : Nat) :
    candName (String.mk (splitext orig.data).1) (String.mk (splitext orig.data).2) k
      ≠ orig := by
  intro h
  have hd := congrArg String.data h
  simp only [candName, String.data_append] at hd
  have hd2 : (splitext orig.data).1 ++ "-".data ++ (Nat.repr k).data
      ++ (splitext orig.data).2 = orig.data := hd
  have hlen := congrArg List.length hd2
  simp only [List.length_append] at hlen
  have hre := congrArg List.length (splitext_append orig.data)
  simp only [List.length_append] at hre
  have h1 : 0 < (Nat.repr k).data.length := by
    rw [repr_data_eq]
    exact natChars_length_pos k
  have h2 : ("-".data).length = 1 := rfl
  omega

/-- C7: `_get_unique_filename` never returns a name already present in the
destination folder; when the original name is free it is kept; when it is
taken, the result is the first free candidate `name-k.ext` probed strictly
sequentially from `k = 1`; and placing the same filename a second time into
a folder that now contains it yields `name-1.ext` (when that name is
free). -/
theorem claim_C7_unique_filename (existing : List String) (orig : String) :
    _get_unique_filename existing orig ∉ existing
    ∧ (orig ∉ existing → _get_unique_filename existing orig = orig)
    ∧ (orig ∈ existing → ∃ k, 1 ≤ k ∧
        _get_unique_filename existing orig
          = candName (String.mk (splitext orig.data).1)
              (String.mk (splitext orig.data).2) k
        ∧ (∀ i, 1 ≤ i → i < k →
            candName (String.mk (splitext orig.data).1)
              (String.mk (splitext orig.data).2) i ∈ existing))
    ∧ (candName (String.mk (splitext orig.data).1)
          (String.mk (splitext orig.data).2) 1 ∉ existing →
        orig ∉ existing →
        _get_unique_filename (existing ++ [orig]) orig
          = candName (String.mk (splitext orig.data).1)
              (String.mk (splitext orig.data).2) 1) := by
  by_cases ho : orig ∈ existing
  · obtain ⟨j, hj, hfree⟩ :=
      exists_free_candidate existing (String.mk (splitext orig.data).1)
        (String.mk (splitext orig.data).2)
    obtain ⟨j2, hj2, heq, hfree2, hmin⟩ :=
      uniqueLoop_spec existing (String.mk (splitext orig.data).1)
        (String.mk (splitext orig.data).2) (existing.length + 1) 1
        ⟨j, hj, hfree⟩
    have hget : _get_unique_filename existing orig
        = candName (String.mk (splitext orig.data).1)
            (String.mk (splitext orig.data).2) (1 + j2) := by
      unfold _get_unique_filename
      rw [if_pos ho]
      exact heq
    refine ⟨?_, fun hno => absurd ho hno, fun _ => ⟨1 + j2, by omega, hget, ?_⟩, ?_⟩
    · rw [hget]; exact hfree2
    · intro i h1i hik
      have harith : 1 + (i - 1) = i := by omega
      rw [← harith]
      exact hmin (i - 1) (by omega)
    · intro _ hno
      exact absurd ho hno
  · have hget : _get_unique_filename existing orig = orig := by
      unfold _get_unique_filename
      rw [if_neg ho]
    refine ⟨by rw [hget]; exact ho, fun _ => hget, fun hin => absurd hin ho, ?_⟩
    intro hc1 _
    have ho2 : orig ∈ existing ++ [orig] := by simp
    unfold _get_unique_filename
    rw [if_pos ho2]
    have hc1' : candName (String.mk (splitext orig.data).1)
        (String.mk (splitext orig.data).2) 1 ∉ existing ++ [orig] := by
      intro hmem
      rcases List.mem_append.mp hmem with hmem1 | hmem2
      · exact hc1 hmem1
      · exact candName_ne_orig orig 1 (List.mem_singleton.mp hmem2)
    simp only [uniqueLoop, if_neg hc1']

/-- Witness for C7: in a folder containing `b.jpg`, placing `a.jpg` keeps
its name; placing it again (the folder now holding `a.jpg`) yields
`a-1.jpg`. -/
theorem claim_C7_unique_filename_witness :
    _get_unique_filename ["b.jpg"] "a.jpg" = "a.jpg"
    ∧ _get_unique_filename (["b.jpg"] ++ ["a.jpg"]) "a.jpg" = "a-1.jpg" := by
  constructor
  · exact (claim_C7_unique_filename ["b.jpg"] "a.jpg").2.1 (by decide)
  · have h := (claim_C7_unique_filename ["b.jpg"] "a.jpg").2.2.2 (by decide) (by decide)
    rw [h]
    decide

/-- C8 counterexample: moving a file onto its own computed destination path
performs no filesystem action and is logged as a skip, but the placement
returns an unsuccessful result and the driver counts it in the `failed`
counter — not as a non-error skip. -/
theorem claim_C8_counterexample :
    (copy_file_to_destination [] ["dest", "2025", "2025.08", "2025.08.23", "a.jpg"]
      ["dest"] "2025" "2025.08" "2025.08.23" true "day").2 = none
    ∧ (copy_file_to_destination [] ["dest", "2025", "2025.08", "2025.08.23", "a.jpg"]
      ["dest"] "2025" "2025.08" "2025.08.23" true "day").1.success = false
    ∧ (driverUpdateDated
        (copy_file_to_destination [] ["dest", "2025", "2025.08", "2025.08.23", "a.jpg"]
          ["dest"] "2025" "2025.08" "2025.08.23" true "day").1.success
        (copy_file_to_destination [] ["dest", "2025", "2025.08", "2025.08.23", "a.jpg"]
          ["dest"] "2025" "2025.08" "2025.08.23" true "day").1.message
        {}).failed = 1 :=
  ⟨by decide, by decide, by decide⟩

/-- C8 (amended): when a move's computed destination path is byte-identical
to the source path, the placement performs no filesystem change and logs
the skip message, but it returns `success = false` with that message as its
error text, and the driver's statistics update counts the file as failed
(not as a non-error skip). -/
theorem claim_C8_amended (existing : List String) (filePath destinationPath : List String)
    (year month day grouping : String) (s : LoggerStats)
    (h : filePath = targetFolderFor destinationPath year month day grouping ++
          [_get_unique_filename existing (filePath.getLastD "")]) :
    (copy_file_to_destination existing filePath destinationPath
        year month day true grouping).2 = none
    ∧ (copy_file_to_destination existing filePath destinationPath
        year month day true grouping).1
        = ⟨false, none, some skipIdenticalMsg⟩
    ∧ (driverUpdateDated
        (copy_file_to_destination existing filePath destinationPath
          year month day true grouping).1.success
        (copy_file_to_destination existing filePath destinationPath
          year month day true grouping).1.message s).failed = s.failed + 1 := by
  have hcopy : copy_file_to_destination existing filePath destinationPath
      year month day true grouping
      = (⟨false, none, some skipIdenticalMsg⟩, none) := by
    unfold copy_file_to_destination
    rw [if_pos ⟨rfl, h⟩]
  rw [hcopy]
  refine ⟨rfl, rfl, ?_⟩
  simp [driverUpdateDated, LoggerStats.increment_failed]

/-- Witness for the amended C8: the concrete identical-path move of the
counterexample scenario, with the hypothesis discharged by computation. -/
theorem claim_C8_amended_witness :
    (copy_file_to_destination ["x.jpg"] ["d", "2024", "2024.01", "2024.01.05", "f.jpg"]
      ["d"] "2024" "2024.01" "2024.01.05" true "smart").2 = none := by
  exact (claim_C8_amended ["x.jpg"] ["d", "2024", "2024.01", "2024.01.05", "f.jpg"]
    ["d"] "2024" "2024.01" "2024.01.05" "smart" {} (by decide)).1

/-- A filename date is returned unchanged, whatever the metadata says. -/
theorem determine_file_date_of_some (meta : Option PyDateTime) (f : String) (d : PyDateTime)
    (h : extract_date_from_filename f.data = some d) :
    determine_file_date meta f = some d := by
  unfold determine_file_date
  rw [h]

/-- When the filename yields nothing, the resolver returns the metadata
answer. -/
theorem determine_file_date_of_none (meta : Option PyDateTime) (f : String)
    (h : extract_date_from_filename f.data = none) :
    determine_file_date meta f = meta := by
  unfold determine_file_date
  rw [h]
  cases meta <;> rfl

/-- C9: the resolver trusts the filename first — whenever the filename
parser yields a date it is returned unchanged and the metadata answer is
irrelevant; metadata is consulted exactly when the filename yields nothing;
and the resolver returns no date exactly when both sources fail. -/
theorem claim_C9_resolution_policy (f : String) (meta meta2 : Option PyDateTime) :
    (∀ d, extract_date_from_filename f.data = some d →
      determine_file_date meta f = some d)
    ∧ (extract_date_from_filename f.data = none → determine_file_date meta f = meta)
    ∧ (determine_file_date meta f = none ↔
        extract_date_from_filename f.data = none ∧ meta = none)
    ∧ (extract_date_from_filename f.data ≠ none →
        determine_file_date meta f = determine_file_date meta2 f) := by
  refine ⟨fun d h => determine_file_date_of_some meta f d h,
          fun h => determine_file_date_of_none meta f h, ?_, ?_⟩
  · constructor
    · intro hn
      cases hx : extract_date_from_filename f.data with
      | some d =>
        rw [determine_file_date_of_some meta f d hx] at hn
        cases hn
      | none =>
        rw [determine_file_date_of_none meta f hx] at hn
        exact ⟨rfl, hn⟩
    · rintro ⟨h1, h2⟩
      rw [determine_file_date_of_none meta f h1, h2]
  · intro hne
    cases hx : extract_date_from_filename f.data with
    | some d =>
      rw [determine_file_date_of_some meta f d hx,
        determine_file_date_of_some meta2 f d hx]
    | none => exact absurd hx hne

/-- Witness for C9: on `IMG_2021.jpg` (no filename date) the resolver
returns the metadata answer. -/
theorem claim_C9_resolution_policy_witness :
    determine_file_date (some ⟨2020, 1, 2, 3, 4, 5⟩) "IMG_2021.jpg"
      = some ⟨2020, 1, 2, 3, 4, 5⟩ :=
  (claim_C9_resolution_policy "IMG_2021.jpg"
    (some ⟨2020, 1, 2, 3, 4, 5⟩) none).2.1 (by decide)

/-- Each processed file bumps exactly one outcome counter (by one) and
leaves `total_files` unchanged. -/
theorem stepStats_sum (pnd : Bool) (f : FileObservation) (s : LoggerStats) :
    statsSum (stepStats pnd f s) = statsSum s + 1
    ∧ (stepStats pnd f s).total_files = s.total_files := by
  unfold stepStats
  cases f.date with
  | some d =>
    split_ifs <;>
      simp [statsSum, LoggerStats.increment_success, LoggerStats.increment_failed] <;>
      omega
  | none =>
    split_ifs <;>
      simp [statsSum, LoggerStats.increment_no_date, LoggerStats.increment_failed,
        LoggerStats.increment_skipped] <;>
      omega

/-- Over the whole loop, the outcome counters grow by exactly the number of
processed files, and `total_files` never changes. -/
theorem processFilesLoop_sum (pnd : Bool) :
    ∀ (files : List FileObservation) (s : LoggerStats),
      statsSum (processFilesLoop files pnd s) = statsSum s + files.length
      ∧ (processFilesLoop files pnd s).total_files = s.total_files := by
  intro files
  induction files with
  | nil => intro s; simp [processFilesLoop]
  | cons f rest ih =>
    intro s
    simp only [processFilesLoop]
    obtain ⟨h1, h2⟩ := ih (stepStats pnd f s)
    obtain ⟨h3, h4⟩ := stepStats_sum pnd f s
    constructor
    · rw [h1, h3]
      simp [List.length_cons]
      omega
    · rw [h2, h4]

/-- C10: over one run of the processing loop each enumerated media file
increments exactly one of the counters `successful`, `failed`, `skipped`,
`no_date`, so at the end their sum equals `total_files`, which was set to
the number of enumerated files. -/
theorem claim_C10_stats_partition (files : List FileObservation) (pnd : Bool) :
    (runStats files pnd).successful + (runStats files pnd).failed
      + (runStats files pnd).skipped + (runStats files pnd).no_date
      = (runStats files pnd).total_files
    ∧ (runStats files pnd).total_files = files.length
    ∧ (∀ (f : FileObservation) (s : LoggerStats),
        statsSum (stepStats pnd f s) = statsSum s + 1) := by
  obtain ⟨h1, h2⟩ := processFilesLoop_sum pnd files { total_files := files.length }
  have hs0 : statsSum { total_files := files.length } = 0 := rfl
  have hrun : statsSum (runStats files pnd) = files.length := by
    unfold runStats
    rw [h1, hs0]
    omega
  have htot : (runStats files pnd).total_files = files.length := by
    unfold runStats
    rw [h2]
  refine ⟨?_, htot, fun f s => (stepStats_sum pnd f s).1⟩
  have : statsSum (runStats files pnd)
      = (runStats files pnd).successful + (runStats files pnd).failed
        + (runStats files pnd).skipped + (runStats files pnd).no_date := rfl
  rw [← this, hrun, htot]
